import Mathlib

/-!
ExcaliDash backend — verification of the synchronization / trust-boundary
subsystem.

Shallow embedding of `backend/src/index.ts`:
* the Socket.io presence relay (`join-room`, `user-activity`, `disconnect` handlers),
* the drawings-list response cache (`getCachedDrawingsBody`, `cacheDrawingsResponse`,
  `invalidateDrawingsCache`) and its environment-driven TTL,
* the fixed-window rate limiter,
* the collection HTTP handlers (cache-invalidation behaviour),
* the SQLite import pipeline (`validateSqliteHeader`, `verifyDatabaseIntegrityAsync`,
  `POST /import/sqlite`, `POST /import/sqlite/verify`),
* the `drawingUpdateSchema` refine callback (sanitization gate, update path).

JavaScript `Map`s are modelled as association lists with unique keys; timestamps
(`Date.now()`) as natural numbers; file contents as lists of byte values.
-/

namespace ExcaliDash

/-- JS `Map.get`: first binding of the key, if any. -/
def mapGet {α : Type} : List (String × α) → String → Option α
  | [], _ => none
  | (k', v) :: rest, k => if k' = k then some v else mapGet rest k

/-- JS `Map.set`: replace the binding in place if the key is present, else append. -/
def mapSet {α : Type} : List (String × α) → String → α → List (String × α)
  | [], k, v => [(k, v)]
  | (k', v') :: rest, k, v =>
    if k' = k then (k, v) :: rest else (k', v') :: mapSet rest k v

/-- JS `Map.delete`: remove the binding of the key, if any. -/
def mapDelete {α : Type} : List (String × α) → String → List (String × α)
  | [], _ => []
  | (k', v) :: rest, k => if k' = k then rest else (k', v) :: mapDelete rest k

/-! ## Presence & collaboration relay (index.ts lines 496-569) -/

/-- The client-declared identity sent with a `join-room` event
(`Omit<User, "socketId" | "isActive">`). -/
structure UserInfo where
  id : String
  name : String
  initials : String
  color : String
deriving DecidableEq, Repr

/-- The `User` record stored in `roomUsers` (index.ts lines 497-504). -/
structure User where
  id : String
  name : String
  initials : String
  color : String
  socketId : String
  isActive : Bool
deriving DecidableEq, Repr

/-- Builds `{ ...user, socketId: socket.id, isActive: true }` (index.ts line 521). -/
def mkUser (info : UserInfo) (sid : String) : User :=
  ⟨info.id, info.name, info.initials, info.color, sid, true⟩

/-- The map `roomUsers : Map<string, User[]>` (index.ts line 506). -/
abbrev RoomMap := List (String × List User)

/-- Computes `const roomId = "drawing_" + drawingId` (index.ts line 518). -/
def roomKey (drawingId : String) : String := "drawing_" ++ drawingId

/-- The `join-room` handler (index.ts lines 509-530): filter out any prior entry
with the same user id, append the fresh record, store it and broadcast the new
list to the room. Returns the new map and the broadcast `(roomId, list)`. -/
def joinRoomStep (rooms : RoomMap) (sid drawingId : String) (info : UserInfo) :
    RoomMap × (String × List User) :=
  let roomId := roomKey drawingId
  let newUser := mkUser info sid
  let currentUsers := (mapGet rooms roomId).getD []
  let filteredUsers := currentUsers.filter (fun u => u.id != info.id)
  let newUsers := filteredUsers ++ [newUser]
  (mapSet rooms roomId newUsers, (roomId, newUsers))

/-- The `disconnect` handler (index.ts lines 559-568): in every room whose list
contains an entry for the closed socket (`findIndex !== -1`), splice out the
first such entry and broadcast the updated list to that room. -/
def disconnectRooms (rooms : RoomMap) (sid : String) : RoomMap :=
  rooms.map (fun p =>
    if p.2.any (fun u => u.socketId == sid) then
      (p.1, p.2.eraseP (fun u => u.socketId == sid))
    else p)

/-- The broadcasts emitted by the `disconnect` handler: one `presence-update`
per affected room, carrying that room's updated list. -/
def disconnectBroadcasts (rooms : RoomMap) (sid : String) : List (String × List User) :=
  rooms.filterMap (fun p =>
    if p.2.any (fun u => u.socketId == sid) then
      some (p.1, p.2.eraseP (fun u => u.socketId == sid))
    else none)

/-- Models `users.find(u => u.socketId === socket.id)` followed by in-place mutation of
`isActive`: only the first entry whose socket matches is updated. -/
def setActiveFirst : List User → String → Bool → List User
  | [], _, _ => []
  | u :: rest, sid, b =>
    if u.socketId = sid then { u with isActive := b } :: rest
    else u :: setActiveFirst rest sid b

/-- The `user-activity` handler (index.ts lines 544-557): locate the sender's
record by socket id (never by client-declared participant id); when found, flip
its flag and broadcast the full list; otherwise do nothing. -/
def userActivityStep (rooms : RoomMap) (drawingId sid : String) (isActive : Bool) :
    RoomMap × Option (List User) :=
  let roomId := roomKey drawingId
  match mapGet rooms roomId with
  | none => (rooms, none)
  | some users =>
    match users.find? (fun u => u.socketId == sid) with
    | none => (rooms, none)
    | some _ =>
      let updated := setActiveFirst users sid isActive
      (mapSet rooms roomId updated, some updated)

/-- Connection-level events affecting room membership. -/
inductive SockEv where
  | joinRoom (sid : String) (drawingId : String) (info : UserInfo)
  | disconnect (sid : String)
deriving DecidableEq, Repr

/-- One membership event applied to the room map. -/
def stepEv (rooms : RoomMap) : SockEv → RoomMap
  | .joinRoom sid d info => (joinRoomStep rooms sid d info).1
  | .disconnect sid => disconnectRooms rooms sid

/-- A sequence of membership events applied to the room map. -/
def runEvents (rooms : RoomMap) : List SockEv → RoomMap
  | [] => rooms
  | e :: rest => runEvents (stepEv rooms e) rest

/-- Socket-lifecycle validity: given the set of already-closed sockets, a trace
is valid when no closed socket emits a further `join-room`.  (Socket.io fires
`disconnect` exactly once per connection and never delivers events from a
closed socket.) -/
def validEvents : List String → List SockEv → Bool
  | _, [] => true
  | closed, .joinRoom sid _ _ :: rest => !closed.contains sid && validEvents closed rest
  | closed, .disconnect sid :: rest => validEvents (sid :: closed) rest

/-- Ground truth for the room of drawing `d`: the socket of the *latest* join
for each participant id (join replaces by id), as an association list. -/
def lastJoinIn (d : String) : List SockEv → List (String × String) → List (String × String)
  | [], acc => acc
  | .joinRoom sid d' info :: rest, acc =>
    lastJoinIn d rest (if d' = d then mapSet acc info.id sid else acc)
  | .disconnect _ :: rest, acc => lastJoinIn d rest acc

/-- Ground truth: sockets closed by a `disconnect` somewhere in the trace. -/
def closedAfter : List SockEv → List String → List String
  | [], acc => acc
  | .joinRoom _ _ _ :: rest, acc => closedAfter rest acc
  | .disconnect sid :: rest, acc => closedAfter rest (sid :: acc)

/-- Amendment hypothesis for the presence invariant: within the trace, every
`join-room` for drawing `d` from socket `s` declares the participant id `f s`,
i.e. no single connection joins the room under two different participant ids. -/
def socketsKeepIdsIn (d : String) (f : String → String) : List SockEv → Bool
  | [] => true
  | .joinRoom sid d' info :: rest =>
    (d' != d || info.id == f sid) && socketsKeepIdsIn d f rest
  | .disconnect _ :: rest => socketsKeepIdsIn d f rest

/-- A participant id is "currently connected" in the room of `d` after a trace
when its latest join came from a socket that was never disconnected. -/
def connectedIn (d : String) (tr : List SockEv) (i : String) : Prop :=
  ∃ s, mapGet (lastJoinIn d tr []) i = some s ∧ s ∉ closedAfter tr []

instance (d : String) (tr : List SockEv) (i : String) : Decidable (connectedIn d tr i) := by
  unfold connectedIn
  cases mapGet (lastJoinIn d tr []) i with
  | none => exact .isFalse (by simp)
  | some s =>
    by_cases h : s ∈ closedAfter tr []
    · exact .isFalse (by simp [h])
    · exact .isTrue ⟨s, rfl, h⟩

/-! ## Drawings-list query cache (index.ts lines 131-188) -/

/-- The entry type `DrawingsCacheEntry = { body: Buffer; expiresAt: number }` (index.ts line 138).
The serialized body is modelled as the JSON string whose bytes the `Buffer` holds. -/
structure CacheEntry where
  body : String
  expiresAt : Nat
deriving DecidableEq, Repr

/-- The in-memory cache `drawingsCache : Map<string, DrawingsCacheEntry>`. -/
abbrev DrawingsCache := List (String × CacheEntry)

/-- Lookup `getCachedDrawingsBody` (index.ts lines 157-165): a hit only while
`now ≤ expiresAt`; a stale entry is deleted and reported as a miss.  `Date.now()`
is passed in as `now`; the possibly-updated cache is returned alongside. -/
def getCachedDrawingsBody (cache : DrawingsCache) (key : String) (now : Nat) :
    Option String × DrawingsCache :=
  match mapGet cache key with
  | none => (none, cache)
  | some entry =>
    if now > entry.expiresAt then (none, mapDelete cache key)
    else (some entry.body, cache)

/-- Store `cacheDrawingsResponse` (index.ts lines 167-174): serialize the payload once
(`JSON.stringify`, abstracted as the `serialize` argument), store it with expiry
`now + ttl`, and return the same serialized body. -/
def cacheDrawingsResponse {α : Type} (serialize : α → String) (cache : DrawingsCache)
    (key : String) (payload : α) (now ttl : Nat) : String × DrawingsCache :=
  let body := serialize payload
  (body, mapSet cache key ⟨body, now + ttl⟩)

/-- Invalidation `invalidateDrawingsCache` (index.ts lines 176-178): clears every entry. -/
def invalidateDrawingsCache (_cache : DrawingsCache) : DrawingsCache := []

/-! ## Environment-driven configuration (index.ts lines 131-137 and 278-284) -/

/-- The result of JavaScript `Number(process.env.X)`: `NaN` for an absent or
non-numeric value, possibly `±Infinity`, otherwise a finite number (modelled as
a rational, which captures every finite double exactly). -/
inductive JsNumber where
  | nan
  | posInf
  | negInf
  | finite (q : ℚ)
deriving DecidableEq, Repr

/-- JavaScript `Number.isFinite`. -/
def JsNumber.isFinite : JsNumber → Bool
  | .finite _ => true
  | _ => false

/-- JavaScript `parsed <= 0` (comparisons with `NaN` are false). -/
def JsNumber.leZero : JsNumber → Bool
  | .finite q => decide (q ≤ 0)
  | .negInf => true
  | _ => false

/-- The shared pattern of both config initializers:
`if (!Number.isFinite(parsed) || parsed <= 0) return dflt; return parsed;`. -/
def configOrDefault (dflt : ℚ) (parsed : JsNumber) : JsNumber :=
  if !parsed.isFinite || parsed.leZero then .finite dflt else parsed

/-- Config `DRAWINGS_CACHE_TTL_MS` (index.ts lines 131-137), default 5000 ms. -/
def drawingsCacheTtlMs (parsed : JsNumber) : JsNumber := configOrDefault 5000 parsed

/-- Config `RATE_LIMIT_MAX_REQUESTS` (index.ts lines 278-284), default 1000. -/
def rateLimitMaxRequests (parsed : JsNumber) : JsNumber := configOrDefault 1000 parsed

/-! ## Fixed-window rate limiter (index.ts lines 264-305) -/

/-- An entry of `requestCounts : Map<string, { count, resetTime }>`. -/
structure RateRec where
  count : Nat
  resetTime : Nat
deriving DecidableEq, Repr

/-- Window length `RATE_LIMIT_WINDOW = 15 * 60 * 1000` (index.ts line 266). -/
def RATE_LIMIT_WINDOW : Nat := 15 * 60 * 1000

/-- The rate-limiting middleware (index.ts lines 286-305) for one request from
`ip` at time `now`, with configured maximum `maxReq`.  Returns the updated map
and `true` when the request is allowed (`next()`), `false` on the 429 path. -/
def rateLimitStep (maxReq : Nat) (m : List (String × RateRec)) (ip : String)
    (now : Nat) : List (String × RateRec) × Bool :=
  match mapGet m ip with
  | none => (mapSet m ip ⟨1, now + RATE_LIMIT_WINDOW⟩, true)
  | some clientData =>
    if now > clientData.resetTime then
      (mapSet m ip ⟨1, now + RATE_LIMIT_WINDOW⟩, true)
    else if clientData.count ≥ maxReq then
      (m, false)
    else
      (mapSet m ip ⟨clientData.count + 1, clientData.resetTime⟩, true)

/-- A sequence of requests from one address at the given times; returns the
final map and the allow/reject decision of each request, in order. -/
def rateLimitRun (maxReq : Nat) (m : List (String × RateRec)) (ip : String) :
    List Nat → List (String × RateRec) × List Bool
  | [] => (m, [])
  | t :: rest =>
    let s := rateLimitStep maxReq m ip t
    let r := rateLimitRun maxReq s.1 ip rest
    (r.1, s.2 :: r.2)

/-! ## Collection handlers and cache invalidation (index.ts lines 898-947) -/

/-- A row of the `Collection` table. -/
structure Collection where
  id : String
  name : String
deriving DecidableEq, Repr

/-- A row of the `Drawing` table (fields relevant to the modelled handlers). -/
structure Drawing where
  id : String
  name : String
  elements : String
  appState : String
  files : String
  preview : Option String
  collectionId : Option String
  version : Nat
deriving DecidableEq, Repr

/-- Backend state shared by the HTTP handlers: the two tables and the
drawings-list cache. -/
structure ServerState where
  drawings : List Drawing
  collections : List Collection
  drawingsCache : DrawingsCache
deriving DecidableEq, Repr

/-- Handler `POST /collections` (index.ts lines 899-909), success path:
`prisma.collection.create({ data: { name } })` and respond.  The handler does
not touch `drawingsCache`. -/
def postCollections (st : ServerState) (newId name : String) : ServerState :=
  { st with collections := st.collections ++ [⟨newId, name⟩] }

/-- Handler `PUT /collections/:id` (index.ts lines 912-924), success path:
`prisma.collection.update({ where: { id }, data: { name } })` and respond.
The handler does not touch `drawingsCache`. -/
def putCollection (st : ServerState) (id name : String) : ServerState :=
  { st with collections :=
      st.collections.map (fun c => if c.id = id then { c with name := name } else c) }

/-- Handler `DELETE /collections/:id` (index.ts lines 927-947), success path: in one
transaction unlink the collection's drawings and delete the collection, then
`invalidateDrawingsCache()`. -/
def deleteCollection (st : ServerState) (id : String) : ServerState :=
  { st with
    drawings := st.drawings.map (fun d =>
      if d.collectionId = some id then { d with collectionId := none } else d),
    collections := st.collections.filter (fun c => c.id != id),
    drawingsCache := invalidateDrawingsCache st.drawingsCache }

/-- Handler `DELETE /drawings/:id` (index.ts lines 839-848), success path: delete the
row, then `invalidateDrawingsCache()` — shown for contrast with the collection
create/update handlers. -/
def deleteDrawing (st : ServerState) (id : String) : ServerState :=
  { st with
    drawings := st.drawings.filter (fun d => d.id != id),
    drawingsCache := invalidateDrawingsCache st.drawingsCache }

/-! ## SQLite import pipeline (index.ts lines 407-494 and 1129-1217) -/

/-- The 16-byte magic header `"SQLite format 3\0"` (index.ts lines 421-424). -/
def sqliteMagic : List Nat :=
  [0x53, 0x51, 0x4c, 0x69, 0x74, 0x65, 0x20, 0x66,
   0x6f, 0x72, 0x6d, 0x61, 0x74, 0x20, 0x33, 0x00]

/-- Shallow check `validateSqliteHeader` (index.ts lines 407-440): read the first 16 bytes;
a file shorter than 16 bytes fails (`bytesRead < 16`), otherwise the bytes must
equal the fixed magic header. -/
def validateSqliteHeader (file : List Nat) : Bool :=
  let buffer := file.take 16
  if buffer.length < 16 then false
  else buffer == sqliteMagic

/-- How the deep-validation worker promise can settle (index.ts lines 447-480):
a `message` with the worker's verdict, an `error` event, a non-zero `exit`, or
the 10-second timeout.  The first settlement wins (the `settled` flag). -/
inductive WorkerOutcome where
  | message (isValid : Bool)
  | workerError
  | exitNonZero
  | timeout
deriving DecidableEq, Repr

/-- The boolean the promise resolves with for each outcome: only a `message`
carrying `true` validates; error, non-zero exit and timeout all resolve `false`. -/
def workerResult : WorkerOutcome → Bool
  | .message b => b
  | _ => false

/-- Deep check `verifyDatabaseIntegrityAsync` (index.ts lines 442-481): a header mismatch
resolves `false` without ever constructing the worker; otherwise the worker is
started and the promise settles per `outcome`.  The second component records
whether the worker was started. -/
def verifyDatabaseIntegrityAsync (file : List Nat) (outcome : WorkerOutcome) :
    Bool × Bool :=
  if !validateSqliteHeader file then (false, false)
  else (workerResult outcome, true)

/-- The files the import pipeline may touch: the live store `prisma/dev.db`
and the backup `prisma/dev.db.backup` (`none` = the file does not exist). -/
structure FsState where
  liveDb : Option (List Nat)
  backupDb : Option (List Nat)
deriving DecidableEq, Repr

/-- What an import/verify handler leaves behind: the file-system state, the
staged temporary file still on disk when the response is sent (if any), whether
the deep-validation worker was started, and the HTTP status responded. -/
structure ImportOutcome where
  fs : FsState
  stagedRemains : Option (List Nat)
  workerStarted : Bool
  status : Nat
deriving DecidableEq, Repr

/-- Handler `POST /import/sqlite` (index.ts lines 1155-1217), with the staging move
assumed to succeed: verify the staged upload; on failure remove it and respond
400; on success back up the live store if it exists, move the staged file over
it, and respond 200. -/
def importSqliteHandler (fs : FsState) (upload : List Nat) (outcome : WorkerOutcome) :
    ImportOutcome :=
  let verdict := verifyDatabaseIntegrityAsync upload outcome
  if !verdict.1 then
    -- removeFileIfExists(stagedPath); 400 "failed integrity check"
    { fs := fs, stagedRemains := none, workerStarted := verdict.2, status := 400 }
  else
    let fs1 : FsState :=
      match fs.liveDb with
      | some live => { fs with backupDb := some live }  -- copyFile(dbPath, backupPath)
      | none => fs                                      -- no live store: skip backup
    { fs := { fs1 with liveDb := some upload },         -- moveFile(stagedPath, dbPath)
      stagedRemains := none, workerStarted := verdict.2, status := 200 }

/-- Handler `POST /import/sqlite/verify` (index.ts lines 1130-1152): verify the upload,
always `removeFileIfExists` the staged file before responding, and answer
200/400.  The handler never references the live store or the backup. -/
def verifySqliteHandler (fs : FsState) (upload : List Nat) (outcome : WorkerOutcome) :
    ImportOutcome :=
  let verdict := verifyDatabaseIntegrityAsync upload outcome
  if !verdict.1 then
    { fs := fs, stagedRemains := none, workerStarted := verdict.2, status := 400 }
  else
    { fs := fs, stagedRemains := none, workerStarted := verdict.2, status := 200 }

/-! ## Sanitization gate: `drawingUpdateSchema` refine callback (index.ts 343-395)

The element/app-state/file payload types and `sanitizeDrawingData` live in the
`security` module and are treated as parameters: elements of type `E`, app state
of type `A`, files of type `F`, and a sanitizer that either returns cleaned data
or fails (a thrown exception is `none`). -/

/-- A parsed update payload after zod shape validation: `none` = the field was
not supplied.  `collectionId` and `preview` are nullable, hence doubly optional. -/
structure UpdatePayload (E A F : Type) where
  name : Option String
  collectionId : Option (Option String)
  preview : Option (Option String)
  elements : Option (List E)
  appState : Option A
  files : Option F

/-- The full object handed to `sanitizeDrawingData` in the update path. -/
structure DrawingData (E A F : Type) where
  elements : List E
  appState : A
  files : F
  preview : Option (Option String)
  name : Option String
  collectionId : Option (Option String)

/-- The object `fullData` as built at index.ts lines 356-366: absent bulk fields are
replaced by the empty array / empty object (the `emptyA`/`emptyF` parameters). -/
def fullDataOf {E A F : Type} (emptyA : A) (emptyF : F) (d : UpdatePayload E A F) :
    DrawingData E A F :=
  { elements := d.elements.getD [],
    appState := d.appState.getD emptyA,
    files := d.files.getD emptyF,
    preview := d.preview,
    name := d.name,
    collectionId := d.collectionId }

/-- The `.refine` callback of `drawingUpdateSchema` (index.ts lines 349-391):
sanitization runs only when `elements` or `appState` was supplied; a sanitizer
failure falls into the catch block, whose permissive fallback accepts the update
when neither bulk field was supplied but some metadata field was. -/
def drawingUpdateRefine {E A F : Type}
    (sanitize : DrawingData E A F → Option (DrawingData E A F))
    (emptyA : A) (emptyF : F) (d : UpdatePayload E A F) : Bool :=
  if d.elements.isSome || d.appState.isSome then
    match sanitize (fullDataOf emptyA emptyF d) with
    | some _ => true
    | none =>
      -- catch: "if sanitization fails but we have minimal data, allow it to pass"
      if d.elements.isNone && d.appState.isNone &&
          (d.name.isSome || d.preview.isSome || d.collectionId.isSome) then
        true
      else
        false
  else
    true

/-! ## Spec-side predicates used in theorem statements -/

/-- Spec reading of the `user-activity` contract: the updated list has the same
entries in the same positions, except that some records whose connection handle
equals the sender's socket may have had (only) their `isActive` flag rewritten
to `b`.  In particular no record selected by a declared participant id (rather
than by connection) is ever altered. -/
def FlipsOnlyConnection (sid : String) (b : Bool) (users updated : List User) : Prop :=
  List.Forall₂
    (fun u u' => u' = u ∨ (u.socketId = sid ∧ u' = { u with isActive := b }))
    users updated

/-- Concrete update payload used to witness C8: only `elements` was supplied,
with `()` standing in for the opaque app-state/file types. -/
def c8Payload : UpdatePayload Unit Unit Unit := ⟨none, none, none, some [], none, none⟩

/-- A sanitizer that always fails (`sanitizeDrawingData` throwing), used to
witness C8. -/
def c8FailingSanitizer :
    DrawingData Unit Unit Unit → Option (DrawingData Unit Unit Unit) :=
  fun _ => none

/-- Presence invariant carried through the event induction for the room of
drawing `d`: ids are duplicate-free, every stored record's id is the one its
socket always declares, and `(id, socket)` pairs in the room are exactly the
latest-join bindings whose socket is still open. -/
def RoomInv (d : String) (f : String → String) (rooms : RoomMap)
    (lj : List (String × String)) (closed : List String) : Prop :=
  (((mapGet rooms (roomKey d)).getD []).map User.id).Nodup ∧
  (∀ u ∈ (mapGet rooms (roomKey d)).getD [], u.id = f u.socketId) ∧
  (∀ i s : String,
    (∃ u ∈ (mapGet rooms (roomKey d)).getD [], u.id = i ∧ u.socketId = s) ↔
    (mapGet lj i = some s ∧ s ∉ closed))

/-! # Theorems -/

section MapLemmas

theorem mapGet_mapSet_self {α : Type} (m : List (String × α)) (k : String) (v : α) :
    mapGet (mapSet m k v) k = some v := by
  induction m with
  | nil => simp [mapGet, mapSet]
  | cons p rest ih =>
    obtain ⟨a, b⟩ := p
    by_cases h : a = k
    · simp [mapGet, mapSet, h]
    · simp [mapGet, mapSet, h, ih]

theorem mapGet_mapSet_ne {α : Type} (m : List (String × α)) (k k' : String) (v : α)
    (h : k' ≠ k) : mapGet (mapSet m k v) k' = mapGet m k' := by
  induction m with
  | nil => simp [mapGet, mapSet, Ne.symm h]
  | cons p rest ih =>
    obtain ⟨a, b⟩ := p
    by_cases hp : a = k
    · subst hp
      simp [mapGet, mapSet, Ne.symm h]
    · simp [mapGet, mapSet, hp, ih]

theorem mem_keys_mapSet {α : Type} (m : List (String × α)) (k a : String) (v : α) :
    a ∈ (mapSet m k v).map Prod.fst ↔ a ∈ m.map Prod.fst ∨ a = k := by
  induction m with
  | nil => simp [mapSet, eq_comm]
  | cons p rest ih =>
    obtain ⟨x, y⟩ := p
    by_cases hp : x = k
    · subst hp
      simp [mapSet]
      tauto
    · simp [mapSet, hp, ih]
      tauto

theorem nodupKeys_mapSet {α : Type} (m : List (String × α)) (k : String) (v : α)
    (h : (m.map Prod.fst).Nodup) : ((mapSet m k v).map Prod.fst).Nodup := by
  induction m with
  | nil => simp [mapSet]
  | cons p rest ih =>
    obtain ⟨x, y⟩ := p
    simp only [List.map_cons, List.nodup_cons] at h
    by_cases hp : x = k
    · subst hp
      have hset : mapSet ((x, y) :: rest) x v = (x, v) :: rest := by simp [mapSet]
      rw [hset]
      simp only [List.map_cons, List.nodup_cons]
      exact h
    · simp only [mapSet, if_neg hp, List.map_cons, List.nodup_cons]
      refine ⟨?_, ih h.2⟩
      rw [mem_keys_mapSet]
      rintro (hm | hm)
      · exact h.1 hm
      · exact hp hm

theorem mapGet_eq_none_of_not_mem_keys {α : Type} (m : List (String × α)) (k : String)
    (h : k ∉ m.map Prod.fst) : mapGet m k = none := by
  induction m with
  | nil => rfl
  | cons p rest ih =>
    obtain ⟨x, y⟩ := p
    simp only [List.map_cons, List.mem_cons] at h
    push_neg at h
    simp [mapGet, Ne.symm h.1, ih h.2]

theorem mapGet_mapDelete_self {α : Type} (m : List (String × α)) (k : String)
    (h : (m.map Prod.fst).Nodup) : mapGet (mapDelete m k) k = none := by
  induction m with
  | nil => rfl
  | cons p rest ih =>
    obtain ⟨x, y⟩ := p
    simp only [List.map_cons, List.nodup_cons] at h
    by_cases hp : x = k
    · subst hp
      simp only [mapDelete, if_pos rfl]
      exact mapGet_eq_none_of_not_mem_keys rest x h.1
    · simp [mapDelete, mapGet, hp, ih h.2]

end MapLemmas

/-- C2 (counterexample). The claim says the query cache holds no entries
after every collection create/update/delete handler.  `POST /collections`
(index.ts lines 899-909) never calls `invalidateDrawingsCache`, so a cache that
was non-empty before a successful collection create is still non-empty after. -/
theorem collectionCreateKeepsCache_cex :
    (postCollections ⟨[], [], [("k", ⟨"cachedBody", 10⟩)]⟩ "c1" "Team").drawingsCache ≠
      [] := by
  decide

/-- C2 (amended). Whole-cache invalidation runs after `DELETE
/collections/:id` (and after document mutations such as `DELETE /drawings/:id`),
but `POST /collections` and `PUT /collections/:id` leave the cache exactly as it
was: they perform no invalidation. -/
theorem collectionMutationCacheBehaviour (st : ServerState) (cid newId name : String) :
    (deleteCollection st cid).drawingsCache = [] ∧
    (deleteDrawing st cid).drawingsCache = [] ∧
    (postCollections st newId name).drawingsCache = st.drawingsCache ∧
    (putCollection st cid name).drawingsCache = st.drawingsCache := by
  refine ⟨rfl, rfl, rfl, rfl⟩

/-- C4. An upload whose first 16 bytes differ from the fixed SQLite magic
header is rejected (400) without the deep-validation worker ever being started,
the staged temporary file is deleted, and the live store (and backup) files are
unchanged. -/
theorem headerMismatchRejectsWithoutWorker (fs : FsState) (upload : List Nat)
    (outcome : WorkerOutcome) (h : validateSqliteHeader upload = false) :
    (importSqliteHandler fs upload outcome).workerStarted = false ∧
    (importSqliteHandler fs upload outcome).stagedRemains = none ∧
    (importSqliteHandler fs upload outcome).fs = fs ∧
    (importSqliteHandler fs upload outcome).status = 400 := by
  simp [importSqliteHandler, verifyDatabaseIntegrityAsync, h]

/-- Witness for C4: a three-byte upload (header check fails on `bytesRead < 16`)
leaves a live store intact, starts no worker, and is answered 400. -/
theorem headerMismatchRejectsWithoutWorker_witness :
    (importSqliteHandler ⟨some sqliteMagic, none⟩ [1, 2, 3] .timeout).workerStarted =
        false ∧
    (importSqliteHandler ⟨some sqliteMagic, none⟩ [1, 2, 3] .timeout).stagedRemains =
        none ∧
    (importSqliteHandler ⟨some sqliteMagic, none⟩ [1, 2, 3] .timeout).fs =
        ⟨some sqliteMagic, none⟩ ∧
    (importSqliteHandler ⟨some sqliteMagic, none⟩ [1, 2, 3] .timeout).status = 400 :=
  headerMismatchRejectsWithoutWorker ⟨some sqliteMagic, none⟩ [1, 2, 3] .timeout
    (by decide)

/-- C5. An upload that passes the header check but fails deep validation
(worker reports invalid, errors, exits non-zero, or times out — all outcomes
with `workerResult = false`) is rejected with 400, the staged file is deleted,
the live store is byte-for-byte unchanged, and no backup is written. -/
theorem deepValidationFailureFrame (fs : FsState) (upload : List Nat)
    (outcome : WorkerOutcome) (hheader : validateSqliteHeader upload = true)
    (hfail : workerResult outcome = false) :
    (importSqliteHandler fs upload outcome).status = 400 ∧
    (importSqliteHandler fs upload outcome).stagedRemains = none ∧
    (importSqliteHandler fs upload outcome).fs.liveDb = fs.liveDb ∧
    (importSqliteHandler fs upload outcome).fs.backupDb = fs.backupDb := by
  simp [importSqliteHandler, verifyDatabaseIntegrityAsync, hheader, hfail]

/-- Witness for C5: a byte-exact magic-header file whose deep validation times
out is rejected and leaves the live store and (absent) backup untouched. -/
theorem deepValidationFailureFrame_witness :
    (importSqliteHandler ⟨some [7], none⟩ sqliteMagic .timeout).status = 400 ∧
    (importSqliteHandler ⟨some [7], none⟩ sqliteMagic .timeout).stagedRemains = none ∧
    (importSqliteHandler ⟨some [7], none⟩ sqliteMagic .timeout).fs.liveDb = some [7] ∧
    (importSqliteHandler ⟨some [7], none⟩ sqliteMagic .timeout).fs.backupDb = none :=
  deepValidationFailureFrame ⟨some [7], none⟩ sqliteMagic .timeout (by decide) rfl

/-- C10. The verify endpoint always deletes the uploaded temporary file
before responding, never changes the live store or the backup, and its answer
does not depend on the live store's contents at all (it never reads it): for
any two file-system states the handler responds identically. -/
theorem verifyEndpointFrame (fs fs' : FsState) (upload : List Nat)
    (outcome : WorkerOutcome) :
    (verifySqliteHandler fs upload outcome).stagedRemains = none ∧
    (verifySqliteHandler fs upload outcome).fs = fs ∧
    (verifySqliteHandler fs upload outcome).status =
      (verifySqliteHandler fs' upload outcome).status ∧
    (verifySqliteHandler fs upload outcome).workerStarted =
      (verifySqliteHandler fs' upload outcome).workerStarted := by
  unfold verifySqliteHandler
  by_cases h : (verifyDatabaseIntegrityAsync upload outcome).1
  · simp [h]
  · simp [Bool.not_eq_true] at h
    simp [h]

/-- C6. `put(key, payload)` stores the serialized body with expiry
`now + ttl` and returns exactly that body; a later `get(key)` at time `t ≤
now + ttl` returns the same body without touching the cache, while at
`t > now + ttl` it reports a miss and evicts the entry (afterwards the key is
unbound).  The cache is assumed to have the unique keys a JS `Map` guarantees. -/
theorem cachePutGetContract {α : Type} (serialize : α → String) (cache : DrawingsCache)
    (key : String) (payload : α) (now ttl t : Nat)
    (hkeys : (cache.map Prod.fst).Nodup) :
    (cacheDrawingsResponse serialize cache key payload now ttl).1 = serialize payload ∧
    mapGet (cacheDrawingsResponse serialize cache key payload now ttl).2 key =
      some ⟨serialize payload, now + ttl⟩ ∧
    getCachedDrawingsBody (cacheDrawingsResponse serialize cache key payload now ttl).2
        key t =
      (if t ≤ now + ttl then
        (some (serialize payload),
          (cacheDrawingsResponse serialize cache key payload now ttl).2)
      else
        (none,
          mapDelete (cacheDrawingsResponse serialize cache key payload now ttl).2 key)) ∧
    mapGet
      (mapDelete (cacheDrawingsResponse serialize cache key payload now ttl).2 key)
      key = none := by
  have hget : mapGet (cacheDrawingsResponse serialize cache key payload now ttl).2 key =
      some ⟨serialize payload, now + ttl⟩ := by
    simpa [cacheDrawingsResponse] using
      mapGet_mapSet_self cache key (⟨serialize payload, now + ttl⟩ : CacheEntry)
  refine ⟨rfl, hget, ?_, ?_⟩
  · by_cases ht : t ≤ now + ttl
    · simp [getCachedDrawingsBody, hget, ht, Nat.not_lt.mpr ht]
    · have ht' : now + ttl < t := Nat.lt_of_not_le ht
      simp [getCachedDrawingsBody, hget, ht, ht']
  · exact mapGet_mapDelete_self _ key
      (by simpa [cacheDrawingsResponse] using
        nodupKeys_mapSet cache key (⟨serialize payload, now + ttl⟩ : CacheEntry) hkeys)

/-- Witness for C6: a fresh cache, `serialize = id`, `now = 0`, `ttl = 5`,
probed at `t = 3` (inside the TTL). -/
theorem cachePutGetContract_witness :
    (cacheDrawingsResponse id [] "k" "body" 0 5).1 = "body" ∧
    mapGet (cacheDrawingsResponse id [] "k" "body" 0 5).2 "k" = some ⟨"body", 0 + 5⟩ ∧
    getCachedDrawingsBody (cacheDrawingsResponse id [] "k" "body" 0 5).2 "k" 3 =
      (if 3 ≤ 0 + 5 then
        (some "body", (cacheDrawingsResponse id [] "k" "body" 0 5).2)
      else (none, mapDelete (cacheDrawingsResponse id [] "k" "body" 0 5).2 "k")) ∧
    mapGet (mapDelete (cacheDrawingsResponse id [] "k" "body" 0 5).2 "k") "k" = none :=
  cachePutGetContract id [] "k" "body" 0 5 3 (by decide)

/-- C9. Both environment-driven configuration values fall back to their
defaults (5000 ms TTL, 1000 requests) whenever `Number(env)` is `NaN` (absent
or non-numeric input), `±Infinity`, or a finite value `≤ 0`; a positive finite
value is used as given. -/
theorem configFallbackBehaviour :
    (∀ q : ℚ, 0 < q →
      drawingsCacheTtlMs (.finite q) = .finite q ∧
      rateLimitMaxRequests (.finite q) = .finite q) ∧
    (∀ q : ℚ, q ≤ 0 →
      drawingsCacheTtlMs (.finite q) = .finite 5000 ∧
      rateLimitMaxRequests (.finite q) = .finite 1000) ∧
    (∀ p : JsNumber, p.isFinite = false →
      drawingsCacheTtlMs p = .finite 5000 ∧ rateLimitMaxRequests p = .finite 1000) := by
  refine ⟨fun q hq => ?_, fun q hq => ?_, fun p hp => ?_⟩
  · simp [drawingsCacheTtlMs, rateLimitMaxRequests, configOrDefault,
      JsNumber.isFinite, JsNumber.leZero, not_le.mpr hq]
  · simp [drawingsCacheTtlMs, rateLimitMaxRequests, configOrDefault,
      JsNumber.isFinite, JsNumber.leZero, hq]
  · cases p <;> simp_all [drawingsCacheTtlMs, rateLimitMaxRequests, configOrDefault,
      JsNumber.isFinite, JsNumber.leZero]

/-- C8. When sanitization of the bulk content fields actually runs and
fails — which requires `elements` or `appState` to have been supplied — the
update is accepted if it supplied neither bulk field but at least one metadata
field (a vacuous case, since the sanitizer only runs when a bulk field is
present), and rejected otherwise; in particular every payload reaching the
failure branch is rejected. -/
theorem updateSanitizationFallback {E A F : Type}
    (sanitize : DrawingData E A F → Option (DrawingData E A F))
    (emptyA : A) (emptyF : F) (d : UpdatePayload E A F)
    (hrun : (d.elements.isSome || d.appState.isSome) = true)
    (hfail : sanitize (fullDataOf emptyA emptyF d) = none) :
    ((d.elements = none ∧ d.appState = none ∧
        (d.name ≠ none ∨ d.preview ≠ none ∨ d.collectionId ≠ none)) →
      drawingUpdateRefine sanitize emptyA emptyF d = true) ∧
    (¬(d.elements = none ∧ d.appState = none ∧
        (d.name ≠ none ∨ d.preview ≠ none ∨ d.collectionId ≠ none)) →
      drawingUpdateRefine sanitize emptyA emptyF d = false) := by
  have hnotmeta : ¬(d.elements = none ∧ d.appState = none ∧
      (d.name ≠ none ∨ d.preview ≠ none ∨ d.collectionId ≠ none)) := by
    rintro ⟨he, ha, -⟩
    simp [he, ha] at hrun
  have hcond : (d.elements.isNone && d.appState.isNone &&
      (d.name.isSome || d.preview.isSome || d.collectionId.isSome)) = false := by
    cases hel : d.elements with
    | some x => simp [hel]
    | none =>
      cases hap : d.appState with
      | some x => simp [hap]
      | none =>
        rw [hel, hap] at hrun
        simp at hrun
  refine ⟨fun hmeta => absurd hmeta hnotmeta, fun _ => ?_⟩
  unfold drawingUpdateRefine
  rw [if_pos hrun, hfail]
  simp [hcond]

/-- Witness for C8: an update supplying an (empty) `elements` array whose
sanitization fails is rejected. -/
theorem updateSanitizationFallback_witness :
    ((c8Payload.elements = none ∧ c8Payload.appState = none ∧
        (c8Payload.name ≠ none ∨ c8Payload.preview ≠ none ∨
          c8Payload.collectionId ≠ none)) →
      drawingUpdateRefine c8FailingSanitizer () () c8Payload = true) ∧
    (¬(c8Payload.elements = none ∧ c8Payload.appState = none ∧
        (c8Payload.name ≠ none ∨ c8Payload.preview ≠ none ∨
          c8Payload.collectionId ≠ none)) →
      drawingUpdateRefine c8FailingSanitizer () () c8Payload = false) :=
  updateSanitizationFallback c8FailingSanitizer () () c8Payload rfl rfl

/-- In-place update of the first socket match only ever rewrites the
`isActive` flag of records whose connection handle is the sender's. -/
theorem setActiveFirst_flipsOnly (users : List User) (sid : String) (b : Bool) :
    FlipsOnlyConnection sid b users (setActiveFirst users sid b) := by
  induction users with
  | nil => exact List.Forall₂.nil
  | cons u rest ih =>
    by_cases h : u.socketId = sid
    · rw [setActiveFirst, if_pos h]
      exact List.Forall₂.cons (Or.inr ⟨h, rfl⟩)
        (List.forall₂_same.mpr fun x _ => Or.inl rfl)
    · rw [setActiveFirst, if_neg h]
      exact List.Forall₂.cons (Or.inl rfl) ih

/-- C7. The `user-activity` handler touches no other room; when the event's
room exists and holds a record whose connection handle equals the sender's
socket, exactly that record's flag is flipped (selection is by connection
handle — the handler receives no participant id at all) and the full updated
list is both stored and broadcast; when no record matches (or the room does not
exist) the state is unchanged and nothing is broadcast. -/
theorem activityFlipsByConnectionOnly (rooms : RoomMap) (dId sid : String) (b : Bool) :
    (∀ rid, rid ≠ roomKey dId →
      mapGet (userActivityStep rooms dId sid b).1 rid = mapGet rooms rid) ∧
    (match mapGet rooms (roomKey dId) with
     | none => userActivityStep rooms dId sid b = (rooms, none)
     | some users =>
       if users.any (fun u => u.socketId == sid) then
         ∃ updated,
           userActivityStep rooms dId sid b =
             (mapSet rooms (roomKey dId) updated, some updated) ∧
           FlipsOnlyConnection sid b users updated
       else userActivityStep rooms dId sid b = (rooms, none)) := by
  constructor
  · intro rid hrid
    cases hroom : mapGet rooms (roomKey dId) with
    | none => simp [userActivityStep, hroom]
    | some users =>
      cases hfind : users.find? (fun u => u.socketId == sid) with
      | none => simp [userActivityStep, hroom, hfind]
      | some u =>
        simp only [userActivityStep, hroom, hfind]
        exact mapGet_mapSet_ne rooms (roomKey dId) rid _ hrid
  · cases hroom : mapGet rooms (roomKey dId) with
    | none => simp [userActivityStep, hroom]
    | some users =>
      dsimp only
      by_cases hany : users.any (fun u => u.socketId == sid) = true
      · rw [if_pos hany]
        obtain ⟨u, hfind⟩ := Option.isSome_iff_exists.mp
          (List.find?_isSome.mpr (List.any_eq_true.mp hany))
        exact ⟨setActiveFirst users sid b, by simp [userActivityStep, hroom, hfind],
          setActiveFirst_flipsOnly users sid b⟩
      · rw [if_neg hany]
        have hfind : users.find? (fun u => u.socketId == sid) = none :=
          List.find?_eq_none.mpr fun x hx hpx =>
            hany (List.any_eq_true.mpr ⟨x, hx, hpx⟩)
        simp [userActivityStep, hroom, hfind]

section RateLimiter

theorem range_map_decide_succ (c N n : Nat) :
    (List.range (n + 1)).map (fun i => decide (c + i < N)) =
      decide (c < N) :: (List.range n).map (fun i => decide (c + 1 + i < N)) := by
  rw [List.range_succ_eq_map]
  simp only [List.map_cons, List.map_map]
  refine congrArg₂ List.cons (decide_eq_decide.mpr (by omega)) ?_
  apply List.map_congr_left
  intro i _
  simp only [Function.comp_apply]
  exact decide_eq_decide.mpr (by omega)

/-- Requests from `ip` at times all inside the current window (`t ≤ resetTime`),
starting from a record with count `c ≤ N`: the `k`-th request is allowed exactly
when `c + k < N`, the count saturates at `N`, and the window end is unchanged. -/
theorem rateLimitRun_inWindow (ip : String) (N : Nat) :
    ∀ (ts : List Nat) (c r : Nat), c ≤ N → (∀ t ∈ ts, t ≤ r) →
      rateLimitRun N [(ip, ⟨c, r⟩)] ip ts =
        ([(ip, ⟨min (c + ts.length) N, r⟩)],
          (List.range ts.length).map (fun i => decide (c + i < N))) := by
  intro ts
  induction ts with
  | nil =>
    intro c r hc _
    simp [rateLimitRun, Nat.min_eq_left hc]
  | cons t rest ih =>
    intro c r hc hts
    have ht : ¬t > r := Nat.not_lt.mpr (hts t (by simp))
    by_cases hcN : c ≥ N
    · have hstep : rateLimitStep N [(ip, ⟨c, r⟩)] ip t = ([(ip, ⟨c, r⟩)], false) := by
        simp [rateLimitStep, mapGet, ht, hcN]
      rw [rateLimitRun, hstep]
      rw [ih c r hc fun t' h => hts t' (List.mem_cons_of_mem _ h)]
      rw [List.length_cons, range_map_decide_succ]
      refine congrArg₂ Prod.mk ?_ ?_
      · rw [show min (c + rest.length) N = min (c + (rest.length + 1)) N from by omega]
      · refine congrArg₂ List.cons (by simp; omega) ?_
        apply List.map_congr_left
        intro i _
        exact decide_eq_decide.mpr (by omega)
    · have hlt : ¬c ≥ N := hcN
      have hstep : rateLimitStep N [(ip, ⟨c, r⟩)] ip t =
          ([(ip, ⟨c + 1, r⟩)], true) := by
        simp [rateLimitStep, mapGet, mapSet, ht, hlt]
      rw [rateLimitRun, hstep]
      rw [ih (c + 1) r (by omega) fun t' h => hts t' (List.mem_cons_of_mem _ h)]
      rw [List.length_cons, range_map_decide_succ]
      refine congrArg₂ Prod.mk ?_ ?_
      · rw [show min (c + 1 + rest.length) N = min (c + (rest.length + 1)) N from by
          omega]
      · exact congrArg₂ List.cons (by simp; omega) rfl

theorem rateLimitRun_append (N : Nat) (ip : String) :
    ∀ (xs ys : List Nat) (m : List (String × RateRec)),
      rateLimitRun N m ip (xs ++ ys) =
        ((rateLimitRun N (rateLimitRun N m ip xs).1 ip ys).1,
          (rateLimitRun N m ip xs).2 ++
            (rateLimitRun N (rateLimitRun N m ip xs).1 ip ys).2) := by
  intro xs
  induction xs with
  | nil => intro ys m; simp [rateLimitRun]
  | cons x rest ih =>
    intro ys m
    rw [List.cons_append, rateLimitRun, rateLimitRun, ih]
    simp

/-- C3. From first contact, requests inside one window are allowed exactly
while the count stays below the configured maximum `N` (so requests `1..N`
pass and `N+1, N+2, …` are rejected), and a request arriving strictly after the
window-reset timestamp resets the count to 1 and opens a fresh window in which
`N` more requests are allowed on the same pattern. -/
theorem rateLimiterWindowContract (ip : String) (N : Nat) (hN : 1 ≤ N) (t0 : Nat)
    (rest1 : List Nat) (h1 : ∀ t ∈ rest1, t ≤ t0 + RATE_LIMIT_WINDOW) (t1 : Nat)
    (ht1 : t0 + RATE_LIMIT_WINDOW < t1) (rest2 : List Nat)
    (h2 : ∀ t ∈ rest2, t ≤ t1 + RATE_LIMIT_WINDOW) :
    (rateLimitRun N [] ip (t0 :: (rest1 ++ t1 :: rest2))).2 =
      (true :: (List.range rest1.length).map (fun i => decide (1 + i < N))) ++
        (true :: (List.range rest2.length).map (fun i => decide (1 + i < N))) ∧
    (rateLimitRun N [] ip (t0 :: (rest1 ++ t1 :: rest2))).1 =
      [(ip, ⟨min (1 + rest2.length) N, t1 + RATE_LIMIT_WINDOW⟩)] := by
  have hstep0 : rateLimitStep N [] ip t0 =
      ([(ip, ⟨1, t0 + RATE_LIMIT_WINDOW⟩)], true) := by
    simp [rateLimitStep, mapGet, mapSet]
  have hrun1 := rateLimitRun_inWindow ip N rest1 1 (t0 + RATE_LIMIT_WINDOW) hN h1
  have hstep1 : rateLimitStep N
      [(ip, ⟨min (1 + rest1.length) N, t0 + RATE_LIMIT_WINDOW⟩)] ip t1 =
      ([(ip, ⟨1, t1 + RATE_LIMIT_WINDOW⟩)], true) := by
    simp [rateLimitStep, mapGet, mapSet, ht1]
  have hrun2 := rateLimitRun_inWindow ip N rest2 1 (t1 + RATE_LIMIT_WINDOW) hN h2
  rw [rateLimitRun, hstep0]
  rw [rateLimitRun_append, hrun1]
  rw [rateLimitRun, hstep1, hrun2]
  simp

/-- Witness for C3: maximum 2 per window — requests at times 0, 1, 2 give
allow/allow/reject; a request at 900001 (past the window end 900000) resets the
window and is allowed, as is one more inside the new window. -/
theorem rateLimiterWindowContract_witness :
    (rateLimitRun 2 [] "client" (0 :: ([1, 2] ++ 900001 :: [900002]))).2 =
      (true ::
          (List.range ([1, 2] : List Nat).length).map (fun i => decide (1 + i < 2))) ++
        (true ::
          (List.range ([900002] : List Nat).length).map
            (fun i => decide (1 + i < 2))) ∧
    (rateLimitRun 2 [] "client" (0 :: ([1, 2] ++ 900001 :: [900002]))).1 =
      [("client",
        ⟨min (1 + ([900002] : List Nat).length) 2, 900001 + RATE_LIMIT_WINDOW⟩)] :=
  rateLimiterWindowContract "client" 2 (by decide) 0 [1, 2] (by decide) 900001
    (by decide) [900002] (by decide)

end RateLimiter

section Presence

theorem roomKey_inj {a b : String} (h : roomKey a = roomKey b) : a = b := by
  have hd := congrArg String.data h
  rw [roomKey, roomKey, String.data_append, String.data_append] at hd
  exact String.ext (List.append_cancel_left hd)

/-- A predicate satisfied by at most one kind of element of a duplicate-free
list holds for at most one entry. -/
theorem countP_le_one_of_unique {α : Type} (p : α → Bool) :
    ∀ (l : List α), l.Nodup →
      (∀ a ∈ l, ∀ b ∈ l, p a = true → p b = true → a = b) → l.countP p ≤ 1 := by
  intro l
  induction l with
  | nil => intro _ _; simp
  | cons a rest ih =>
    intro hnd huniq
    rw [List.nodup_cons] at hnd
    by_cases hpa : p a = true
    · have hzero : rest.countP p = 0 := by
        rw [List.countP_eq_zero]
        intro b hb hpb
        exact absurd hb (huniq b (List.mem_cons_of_mem _ hb) a (List.mem_cons_self _ _)
          hpb hpa ▸ hnd.1)
      rw [List.countP_cons_of_pos _ _ hpa, hzero]
    · rw [List.countP_cons_of_neg _ _ (by simpa using hpa)]
      exact ih hnd.2 fun x hx y hy hpx hpy =>
        huniq x (List.mem_cons_of_mem _ hx) y (List.mem_cons_of_mem _ hy) hpx hpy

/-- When at most one entry satisfies `p`, removing the first match (`splice` at
`findIndex`) removes every match. -/
theorem eraseP_eq_filter_of_countP_le_one {α : Type} (p : α → Bool) :
    ∀ (l : List α), l.countP p ≤ 1 → l.eraseP p = l.filter (fun a => !p a) := by
  intro l
  induction l with
  | nil => intro _; rfl
  | cons a rest ih =>
    intro hle
    by_cases hpa : p a = true
    · rw [List.countP_cons_of_pos _ _ hpa] at hle
      have hzero : rest.countP p = 0 := by omega
      have hall : ∀ b ∈ rest, p b = false := fun b hb => by
        simpa using List.countP_eq_zero.mp hzero b hb
      rw [List.eraseP_cons, hpa]
      simp only [cond_true]
      rw [List.filter_cons]
      rw [show (!p a) = false from by simp [hpa], if_neg (by simp)]
      exact (List.filter_eq_self.mpr fun b hb => by simp [hall b hb]).symm
    · have hpa' : p a = false := by simpa using hpa
      rw [List.countP_cons_of_neg _ _ (by simp [hpa'])] at hle
      rw [List.eraseP_cons, hpa', List.filter_cons]
      simp only [hpa', cond_false, Bool.not_false, if_pos]
      rw [ih hle]

theorem joinRoomStep_fst (rooms : RoomMap) (sid d' : String) (info : UserInfo) :
    (joinRoomStep rooms sid d' info).1 =
      mapSet rooms (roomKey d')
        (((mapGet rooms (roomKey d')).getD []).filter (fun u => u.id != info.id) ++
          [mkUser info sid]) := rfl

theorem mapGet_disconnectRooms (sid k : String) :
    ∀ rooms : RoomMap,
      mapGet (disconnectRooms rooms sid) k =
        (mapGet rooms k).map (fun us =>
          if us.any (fun u => u.socketId == sid) then
            us.eraseP (fun u => u.socketId == sid)
          else us) := by
  intro rooms
  induction rooms with
  | nil => rfl
  | cons p rest ih =>
    obtain ⟨rk, us⟩ := p
    have hmap : disconnectRooms ((rk, us) :: rest) sid =
        (if us.any (fun u => u.socketId == sid) then
            (rk, us.eraseP (fun u => u.socketId == sid))
          else (rk, us)) :: disconnectRooms rest sid := rfl
    rw [hmap]
    cases hany : us.any (fun u => u.socketId == sid) with
    | true =>
      rw [if_pos (rfl : (true : Bool) = true)]
      by_cases hk : rk = k
      · subst hk
        rw [show mapGet ((rk, us.eraseP (fun u => u.socketId == sid)) ::
              disconnectRooms rest sid) rk =
            some (us.eraseP (fun u => u.socketId == sid)) from by
          rw [mapGet, if_pos rfl]]
        rw [show mapGet ((rk, us) :: rest) rk = some us from by rw [mapGet, if_pos rfl]]
        rw [Option.map_some', if_pos hany]
      · rw [show mapGet ((rk, us.eraseP (fun u => u.socketId == sid)) ::
              disconnectRooms rest sid) k =
            mapGet (disconnectRooms rest sid) k from by rw [mapGet, if_neg hk]]
        rw [show mapGet ((rk, us) :: rest) k = mapGet rest k from by
          rw [mapGet, if_neg hk]]
        exact ih
    | false =>
      rw [if_neg (by simp : ¬(false : Bool) = true)]
      by_cases hk : rk = k
      · subst hk
        rw [show mapGet ((rk, us) :: disconnectRooms rest sid) rk = some us from by
          rw [mapGet, if_pos rfl]]
        rw [show mapGet ((rk, us) :: rest) rk = some us from by rw [mapGet, if_pos rfl]]
        rw [Option.map_some', if_neg (by simp [hany])]
      · rw [show mapGet ((rk, us) :: disconnectRooms rest sid) k =
            mapGet (disconnectRooms rest sid) k from by rw [mapGet, if_neg hk]]
        rw [show mapGet ((rk, us) :: rest) k = mapGet rest k from by
          rw [mapGet, if_neg hk]]
        exact ih

/-- A `join-room` event preserves the presence invariant: the joiner's prior
entry (by id) is replaced, the ground-truth latest-join binding is updated, and
nothing else changes. -/
theorem roomInv_join (d : String) (f : String → String) (rooms : RoomMap)
    (lj : List (String × String)) (closed : List String) (sid d' : String)
    (info : UserInfo) (hnotclosed : sid ∉ closed) (hid : d' = d → info.id = f sid)
    (hinv : RoomInv d f rooms lj closed) :
    RoomInv d f (joinRoomStep rooms sid d' info).1
      (if d' = d then mapSet lj info.id sid else lj) closed := by
  by_cases hd' : d' = d
  case neg =>
    have hkey : roomKey d ≠ roomKey d' := fun h => hd' (roomKey_inj h).symm
    rw [if_neg hd']
    unfold RoomInv at hinv ⊢
    rw [joinRoomStep_fst, mapGet_mapSet_ne _ _ _ _ hkey]
    exact hinv
  case pos =>
    subst hd'
    rw [if_pos rfl]
    have hids : info.id = f sid := hid rfl
    unfold RoomInv at hinv ⊢
    obtain ⟨hnd, hfu, hbij⟩ := hinv
    rw [joinRoomStep_fst, mapGet_mapSet_self]
    simp only [Option.getD_some]
    have hsub : (((((mapGet rooms (roomKey d')).getD []).filter
        (fun u => u.id != info.id))).map User.id).Sublist
        (((mapGet rooms (roomKey d')).getD []).map User.id) :=
      (List.filter_sublist _).map User.id
    have h1 := List.Nodup.sublist hsub hnd
    have hnotin : info.id ∉ (((mapGet rooms (roomKey d')).getD []).filter
        (fun u => u.id != info.id)).map User.id := by
      intro hmem
      obtain ⟨u, hu, huid⟩ := List.mem_map.mp hmem
      rw [List.mem_filter] at hu
      rw [huid] at hu
      simp at hu
    refine ⟨?_, ?_, ?_⟩
    · rw [List.map_append]
      rw [show ([mkUser info sid].map User.id) = [info.id] from rfl, List.nodup_append]
      refine ⟨h1, List.nodup_singleton _, fun x hx hx2 => ?_⟩
      rw [List.mem_singleton] at hx2
      subst hx2
      exact hnotin hx
    · intro u hu
      rcases List.mem_append.mp hu with h | h
      · exact hfu u (List.mem_filter.mp h).1
      · rw [List.mem_singleton] at h
        subst h
        exact hids
    · intro i s
      by_cases hi : i = info.id
      · subst hi
        rw [mapGet_mapSet_self]
        constructor
        · rintro ⟨u, hu, huid, hus⟩
          rcases List.mem_append.mp hu with h | h
          · exfalso
            have hfilt := (List.mem_filter.mp h).2
            rw [huid] at hfilt
            simp at hfilt
          · rw [List.mem_singleton] at h
            subst h
            have hs : sid = s := hus
            exact ⟨congrArg some hs, hs ▸ hnotclosed⟩
        · rintro ⟨hsome, hnc⟩
          have hs : s = sid := (Option.some.inj hsome).symm
          rw [hs]
          exact ⟨mkUser info sid,
            List.mem_append.mpr (Or.inr (List.mem_singleton.mpr rfl)), rfl, rfl⟩
      · rw [mapGet_mapSet_ne _ _ _ _ hi, ← hbij i s]
        constructor
        · rintro ⟨u, hu, huid, hus⟩
          rcases List.mem_append.mp hu with h | h
          · exact ⟨u, (List.mem_filter.mp h).1, huid, hus⟩
          · rw [List.mem_singleton] at h
            subst h
            exact absurd huid.symm hi
        · rintro ⟨u, hu, huid, hus⟩
          refine ⟨u, List.mem_append.mpr (Or.inl (List.mem_filter.mpr ⟨hu, ?_⟩)),
            huid, hus⟩
          rw [huid]
          simp [hi]

/-- A `disconnect` event preserves the presence invariant: the (unique) entry
of the closed socket vanishes from the room and the socket joins the closed
set; the latest-join ground truth is untouched. -/
theorem roomInv_disconnect (d : String) (f : String → String) (rooms : RoomMap)
    (lj : List (String × String)) (closed : List String) (sid : String)
    (hinv : RoomInv d f rooms lj closed) :
    RoomInv d f (disconnectRooms rooms sid) lj (sid :: closed) := by
  unfold RoomInv at hinv ⊢
  obtain ⟨hnd, hfu, hbij⟩ := hinv
  rw [mapGet_disconnectRooms]
  cases hget : mapGet rooms (roomKey d) with
  | none =>
    rw [hget] at hnd hfu hbij
    simp only [Option.map_none', Option.getD_none] at hnd hfu hbij ⊢
    refine ⟨List.nodup_nil, fun u hu => absurd hu (List.not_mem_nil u), ?_⟩
    intro i s
    constructor
    · rintro ⟨u, hu, -, -⟩
      exact absurd hu (List.not_mem_nil u)
    · rintro ⟨hs, hninc⟩
      obtain ⟨u, hu, -, -⟩ := (hbij i s).mpr
        ⟨hs, fun hc => hninc (List.mem_cons_of_mem _ hc)⟩
      exact absurd hu (List.not_mem_nil u)
  | some us =>
    rw [hget] at hnd hfu hbij
    simp only [Option.map_some', Option.getD_some] at hnd hfu hbij ⊢
    cases hany : us.any (fun u => u.socketId == sid) with
    | false =>
      rw [if_neg (by simp : ¬(false : Bool) = true)]
      refine ⟨hnd, hfu, ?_⟩
      intro i s
      constructor
      · rintro ⟨u, hu, huid, hus⟩
        have hold := (hbij i s).mp ⟨u, hu, huid, hus⟩
        refine ⟨hold.1, fun hmem => ?_⟩
        rcases List.mem_cons.mp hmem with h | h
        · have hx : us.any (fun u => u.socketId == sid) = true :=
            List.any_eq_true.mpr ⟨u, hu, by simp [hus.trans h]⟩
          rw [hany] at hx
          exact Bool.false_ne_true hx
        · exact hold.2 h
      · rintro ⟨hs, hninc⟩
        exact (hbij i s).mpr ⟨hs, fun hc => hninc (List.mem_cons_of_mem _ hc)⟩
    | true =>
      rw [if_pos (rfl : (true : Bool) = true)]
      have hnd' : us.Nodup := List.Nodup.of_map User.id hnd
      have huniq : ∀ a ∈ us, ∀ b ∈ us, (a.socketId == sid) = true →
          (b.socketId == sid) = true → a = b := by
        intro a ha b hb hpa hpb
        have hga : a.socketId = sid := by simpa using hpa
        have hgb : b.socketId = sid := by simpa using hpb
        exact List.inj_on_of_nodup_map hnd ha hb
          (by rw [hfu a ha, hfu b hb, hga, hgb])
      have hcount := countP_le_one_of_unique _ us hnd' huniq
      rw [eraseP_eq_filter_of_countP_le_one _ us hcount]
      refine ⟨List.Nodup.sublist ((List.filter_sublist us).map User.id) hnd,
        fun u hu => hfu u (List.mem_filter.mp hu).1, ?_⟩
      intro i s
      constructor
      · rintro ⟨u, hu, huid, hus⟩
        obtain ⟨huu, hup⟩ := List.mem_filter.mp hu
        have hold := (hbij i s).mp ⟨u, huu, huid, hus⟩
        have hssid : s ≠ sid := by
          intro hcontra
          have hx : u.socketId = sid := hus.trans hcontra
          rw [hx] at hup
          simp at hup
        refine ⟨hold.1, fun hmem => ?_⟩
        rcases List.mem_cons.mp hmem with h | h
        · exact hssid h
        · exact hold.2 h
      · rintro ⟨hs, hninc⟩
        have hssid : s ≠ sid := fun h => hninc (h ▸ List.mem_cons_self _ _)
        obtain ⟨u, hu, huid, hus⟩ := (hbij i s).mpr
          ⟨hs, fun hc => hninc (List.mem_cons_of_mem _ hc)⟩
        refine ⟨u, List.mem_filter.mpr ⟨hu, ?_⟩, huid, hus⟩
        rw [hus]
        simp [hssid]

/-- The presence invariant holds after any valid trace in which each socket
keeps one declared id for the room of `d`. -/
theorem roomInv_run (d : String) (f : String → String) :
    ∀ (tr : List SockEv) (rooms : RoomMap) (lj : List (String × String))
      (closed : List String),
      validEvents closed tr = true → socketsKeepIdsIn d f tr = true →
      RoomInv d f rooms lj closed →
      RoomInv d f (runEvents rooms tr) (lastJoinIn d tr lj)
        (closedAfter tr closed) := by
  intro tr
  induction tr with
  | nil => exact fun rooms lj closed _ _ hinv => hinv
  | cons e rest ih =>
    intro rooms lj closed hv hf hinv
    cases e with
    | joinRoom sid d' info =>
      rw [validEvents, Bool.and_eq_true] at hv
      rw [socketsKeepIdsIn, Bool.and_eq_true] at hf
      have hnotclosed : sid ∉ closed := by
        have hc := hv.1
        simp at hc
        exact hc
      have hid : d' = d → info.id = f sid := by
        intro hdd
        have hc := hf.1
        rw [hdd] at hc
        simp at hc
        exact hc
      exact ih _ _ _ hv.2 hf.2
        (roomInv_join d f rooms lj closed sid d' info hnotclosed hid hinv)
    | disconnect sid =>
      rw [validEvents] at hv
      rw [socketsKeepIdsIn] at hf
      exact ih _ _ _ hv hf (roomInv_disconnect d f rooms lj closed sid hinv)

/-- C1 (counterexample). The claim fails as stated: when one connection
joins the same room under two different participant ids, `disconnect` (which
splices out only the first matching entry per room) leaves a participant whose
connection is closed.  Trace: socket `s` joins room `x` as id `1`, joins again
as id `2`, then disconnects — the room still lists id `2`, whose only (latest)
connection `s` is closed. -/
theorem presenceMatchesConnections_cex :
    validEvents []
      [SockEv.joinRoom "s" "x" ⟨"1", "n1", "i1", "c1"⟩,
        SockEv.joinRoom "s" "x" ⟨"2", "n2", "i2", "c2"⟩,
        SockEv.disconnect "s"] = true ∧
    ((mapGet (runEvents []
        [SockEv.joinRoom "s" "x" ⟨"1", "n1", "i1", "c1"⟩,
          SockEv.joinRoom "s" "x" ⟨"2", "n2", "i2", "c2"⟩,
          SockEv.disconnect "s"]) (roomKey "x")).getD []).map User.id = ["2"] ∧
    ¬connectedIn "x"
      [SockEv.joinRoom "s" "x" ⟨"1", "n1", "i1", "c1"⟩,
        SockEv.joinRoom "s" "x" ⟨"2", "n2", "i2", "c2"⟩,
        SockEv.disconnect "s"] "2" :=
  ⟨by decide, by decide, by decide⟩

/-- C1 (amended). For any valid sequence of joins and disconnects in which
no single connection joins the room of drawing `d` under two different
participant ids (each socket `s` always declares id `f s` there), the room's
participant list holds no duplicate ids and lists exactly the participant ids
whose latest join came over a still-open connection. -/
theorem presenceMatchesConnections (d : String) (tr : List SockEv)
    (f : String → String) (hv : validEvents [] tr = true)
    (hf : socketsKeepIdsIn d f tr = true) :
    (((mapGet (runEvents [] tr) (roomKey d)).getD []).map User.id).Nodup ∧
    ∀ i : String,
      i ∈ ((mapGet (runEvents [] tr) (roomKey d)).getD []).map User.id ↔
        connectedIn d tr i := by
  have hinit : RoomInv d f [] [] [] := by
    refine ⟨List.nodup_nil, fun u hu => absurd hu (List.not_mem_nil u), ?_⟩
    intro i s
    constructor
    · rintro ⟨u, hu, -, -⟩
      exact absurd hu (List.not_mem_nil u)
    · rintro ⟨hs, -⟩
      exact Option.noConfusion hs
  have hfin := roomInv_run d f tr [] [] [] hv hf hinit
  unfold RoomInv at hfin
  obtain ⟨hnd, -, hbij⟩ := hfin
  refine ⟨hnd, fun i => ?_⟩
  rw [List.mem_map]
  constructor
  · rintro ⟨u, hu, huid⟩
    exact ⟨u.socketId, (hbij i u.socketId).mp ⟨u, hu, huid, rfl⟩⟩
  · rintro ⟨s, hs, hnc⟩
    obtain ⟨u, hu, huid, -⟩ := (hbij i s).mpr ⟨hs, hnc⟩
    exact ⟨u, hu, huid⟩

/-- Witness for the amended C1: sockets `a` and `b` join room `x` as ids `1`
and `2`, then `a` disconnects; the invariant is evaluated and id `1`'s presence
is equivalent to its connectedness. -/
theorem presenceMatchesConnections_witness :
    (((mapGet (runEvents []
        [SockEv.joinRoom "a" "x" ⟨"1", "n1", "i1", "c1"⟩,
          SockEv.joinRoom "b" "x" ⟨"2", "n2", "i2", "c2"⟩,
          SockEv.disconnect "a"]) (roomKey "x")).getD []).map User.id).Nodup ∧
    ("1" ∈ ((mapGet (runEvents []
        [SockEv.joinRoom "a" "x" ⟨"1", "n1", "i1", "c1"⟩,
          SockEv.joinRoom "b" "x" ⟨"2", "n2", "i2", "c2"⟩,
          SockEv.disconnect "a"]) (roomKey "x")).getD []).map User.id ↔
      connectedIn "x"
        [SockEv.joinRoom "a" "x" ⟨"1", "n1", "i1", "c1"⟩,
          SockEv.joinRoom "b" "x" ⟨"2", "n2", "i2", "c2"⟩,
          SockEv.disconnect "a"] "1") :=
  ⟨(presenceMatchesConnections "x"
      [SockEv.joinRoom "a" "x" ⟨"1", "n1", "i1", "c1"⟩,
        SockEv.joinRoom "b" "x" ⟨"2", "n2", "i2", "c2"⟩,
        SockEv.disconnect "a"]
      (fun s => if s = "a" then "1" else "2") (by decide) (by decide)).1,
    (presenceMatchesConnections "x"
      [SockEv.joinRoom "a" "x" ⟨"1", "n1", "i1", "c1"⟩,
        SockEv.joinRoom "b" "x" ⟨"2", "n2", "i2", "c2"⟩,
        SockEv.disconnect "a"]
      (fun s => if s = "a" then "1" else "2") (by decide) (by decide)).2 "1"⟩

end Presence

end ExcaliDash
